/-
Verification of the pymodoro timer (src/pymodoro.py) against its
natural-language specification.

The development shallowly embeds the parts of the program the claims are
about:
* the Python builtin `round(x, 2)` (banker rounding to two decimals) over ℚ;
* `log_partial_session` (pymodoro.py lines 94-99);
* `create_progress_bar` (lines 170-177), returning `none` at `total = 0`
  to reflect the `ZeroDivisionError` that the division `(total-current)/total`
  raises there;
* the `run_timer` render loop (lines 198-227) as a step function over an
  explicit state `(now, start_time, pause_start)`, driven per iteration by
  the pause flag observed at the top-of-loop read (`p1`, line 201) and at
  the unlocked post-sleep re-check (`p2`, line 226), and by the iteration's
  wall-clock duration `δ`; `pause_start` is `Option ℚ` because the Python
  local is unassigned until the first paused render (line 221), and reading
  it unassigned (line 227) raises `UnboundLocalError`, modelled as a crash;
* the scheduler loop of `run` (lines 268-284) together with the
  `KeyboardInterrupt` handler of `run_timer` (lines 238-247) as a trace
  semantics `runCycles`: the environment supplies one `Outcome`
  (completed / cancelled-with-elapsed) per started timer, and the trace
  records timer starts, log records, and the propagating interrupt;
* `load_config` (lines 32-54) over an abstract disk holding the config
  file's parse state;
* `save_last_title` / `get_last_title` (lines 64-80) over an abstract
  one-slot file.

Wall-clock times and durations are rationals.
-/
import Mathlib

/-! ### Python rounding

`round(x, 2)` on Python floats: round half to even at two decimal places.
We model it over ℚ (the idealisation of the float computation). -/

/-- Round a rational to the nearest integer, ties to even
(the Python `round` tie-breaking rule). -/
def roundHalfEven (q : ℚ) : ℤ :=
  let f := ⌊q⌋
  let r := q - f
  if r < 1/2 then f
  else if 1/2 < r then f + 1
  else if f % 2 = 0 then f else f + 1

/-- Python `round(q, 2)`: `q` rounded to two decimal places, half to even. -/
def pyRound2 (q : ℚ) : ℚ := (roundHalfEven (q * 100) : ℚ) / 100

/-! ### Configuration and log records

`CONFIG` keys used by the engine/scheduler (pymodoro.py lines 22-30).
`STATE_FILE` and `LOG_FILE` are file names and live in the config-file
model below. -/

structure Config where
  WORK_MINUTES : ℚ
  SHORT_BREAK_MINUTES : ℚ
  LONG_BREAK_MINUTES : ℚ
  SESSIONS_BEFORE_LONG_BREAK : ℕ
  MIN_SECONDS_TO_LOG : ℚ
deriving DecidableEq

/-- One CSV row appended by `log_session` (line 90): `title,minutes,datetime,type`.
The wall-clock `datetime` column is not modelled. -/
structure LogRecord where
  title : String
  minutes : ℚ
  stype : String
deriving DecidableEq

/-- Model of `log_partial_session` (lines 94-99): returns the record appended by the
inner `log_session` call, or `none` when below the threshold.
`minutes = round(elapsed_seconds / 60, 2)`, type `"partial_" + session_type`. -/
def log_partial_session (cfg : Config) (title : String) (elapsed_seconds : ℚ)
    (session_type : String) : Option LogRecord :=
  if elapsed_seconds ≥ cfg.MIN_SECONDS_TO_LOG then
    some ⟨title, pyRound2 (elapsed_seconds / 60), "partial_" ++ session_type⟩
  else none

/-! ### Progress bar (`create_progress_bar`, lines 170-177) -/

/-- Line 173: `min(1.0, max(0.0, (total - current) / total))`. -/
def clampedProgress (current total : ℚ) : ℚ :=
  min 1 (max 0 ((total - current) / total))

/-- Line 176: `percentage = int(100 * progress)`; `progress ∈ [0,1]`, so
Python truncation toward zero coincides with the floor. -/
def progressPercentage (current total : ℚ) : ℤ :=
  ⌊100 * clampedProgress current total⌋

/-- Line 174: `filled = int(width * progress)`. -/
def filledCells (current total : ℚ) (width : ℕ) : ℕ :=
  (⌊(width : ℚ) * clampedProgress current total⌋).toNat

/-- Python string repetition for characters, as in line 175. -/
def repChar (c : Char) (n : ℕ) : String := String.mk (List.replicate n c)

/-- Model of `create_progress_bar(current, total, width=30)` (lines 170-177).
When `total = 0` the division on line 173 raises `ZeroDivisionError`;
the function is partial there, modelled by `none`. -/
def create_progress_bar (current total : ℚ) (width : ℕ := 30) : Option String :=
  if total = 0 then none
  else
    let filled := filledCells current total width
    let bar := repChar '█' filled ++ repChar '░' (width - filled)
    some ("[" ++ bar ++ "] " ++ toString (progressPercentage current total) ++ "%")

/-! ### The `run_timer` render loop (lines 198-227)

One loop iteration, as a step function.  `p1` is the value of the shared
`self.paused` flag at the locked top-of-loop read (line 201); `p2` its value
at the unlocked re-check after `time.sleep(0.1)` (line 226); the input
thread may flip the flag at any point in between, so `p1` and `p2` are
independent inputs.  `δ ≥ 0` is the wall-clock duration of the iteration
(render time plus sleep).  The state's `pause_start` mirrors the Python
local of the same name, unassigned (`none`) until a paused frame is
rendered. -/

structure LoopSt where
  now : ℚ
  start_time : ℚ
  pause_start : Option ℚ
deriving DecidableEq

inductive StepRes
  /-- the `remaining <= 0` branch: loop `break`s, timer completes (line 209) -/
  | completed (st : LoopSt)
  /-- line 227 executed with `pause_start` unassigned: `UnboundLocalError` -/
  | crashed
  /-- loop continues; `renderedBar` records whether `create_progress_bar`
  was called this iteration (line 214) -/
  | next (st : LoopSt) (renderedBar : Bool)
deriving DecidableEq

/-- One iteration of the `while True` loop of `run_timer` for a timer of
`total` planned seconds. -/
def runTimerStep (total : ℚ) (st : LoopSt) (p1 p2 : Bool) (δ : ℚ) : StepRes :=
  if p1 = false ∧ total - (st.now - st.start_time) ≤ 0 then
    .completed st
  else
    -- unpaused with remaining > 0: progress bar rendered (line 214);
    -- paused: paused frame rendered and `pause_start = time.time()` (line 221)
    let renderedBar := !p1
    let ps := if p1 then some st.now else st.pause_start
    let now2 := st.now + δ
    if p2 then
      match ps with
      | none => .crashed
      | some s => .next ⟨now2, st.start_time + (now2 - s), ps⟩ renderedBar
    else
      .next ⟨now2, st.start_time, ps⟩ renderedBar

inductive LoopRes
  | completed (st : LoopSt)
  | crashed
  | outOfTicks (st : LoopSt)
deriving DecidableEq

/-- Iterate `runTimerStep` over a schedule of iterations; the Bool records
whether `create_progress_bar` was ever called. -/
def runTimerLoop (total : ℚ) : LoopSt → List (Bool × Bool × ℚ) → LoopRes × Bool
  | st, [] => (.outOfTicks st, false)
  | st, (p1, p2, δ) :: ticks =>
    match runTimerStep total st p1 p2 δ with
    | .completed st2 => (.completed st2, false)
    | .crashed => (.crashed, false)
    | .next st2 bar =>
      let rest := runTimerLoop total st2 ticks
      (rest.1, bar || rest.2)

/-! ### Scheduler (`run`, lines 268-284) as a trace semantics

The environment decides, for each timer the scheduler starts, whether it
ran to completion or was interrupted after `elapsed` seconds. -/

inductive Outcome
  | completed
  | cancelled (elapsed : ℚ)
deriving DecidableEq

inductive Ev
  /-- a `run_timer(minutes, label, session_type)` invocation (timer started) -/
  | timerStart (minutes : ℚ) (stype : String)
  /-- a row appended to the CSV log by `log_session` -/
  | logRec (rec : LogRecord)
  /-- the `KeyboardInterrupt` re-raised by `run_timer` (line 247) reaching
  the `except` of `run` (line 286): the whole run terminates -/
  | interrupted
deriving DecidableEq

/-- Events produced by the `except KeyboardInterrupt` handler of `run_timer`
(lines 238-246): the partial-session record, if the threshold is met. -/
def partialEvs (cfg : Config) (title : String) (elapsed : ℚ)
    (session_type : String) : List Ev :=
  match log_partial_session cfg title elapsed session_type with
  | some r => [.logRec r]
  | none => []

/-- The break decision of `run` (lines 275-284) on the incremented
`session_count`: `some (minutes, type)` when a break timer is run and
logged, `none` when the break step is skipped (zero-minute short break,
line 284). -/
def breakParams (cfg : Config) (count2 : ℕ) : Option (ℚ × String) :=
  if count2 % cfg.SESSIONS_BEFORE_LONG_BREAK = 0 then
    some (cfg.LONG_BREAK_MINUTES, "long_break")
  else if cfg.SHORT_BREAK_MINUTES > 0 then
    some (cfg.SHORT_BREAK_MINUTES, "short_break")
  else
    none

/-- The `while True` loop of `run` (lines 268-284), driven by one `Outcome`
per started timer; the trace ends when the outcome list is exhausted or an
interrupt propagates.  `count` is `session_count` before the iteration. -/
def runCycles (cfg : Config) (title : String) (count : ℕ) :
    List Outcome → List Ev
  | [] => []
  | o :: os =>
    match o with
    | .cancelled e =>
      -- work timer interrupted: partial evaluation, then propagation
      Ev.timerStart cfg.WORK_MINUTES "work" ::
        (partialEvs cfg title e "work" ++ [Ev.interrupted])
    | .completed =>
      let evW := [Ev.timerStart cfg.WORK_MINUTES "work",
                  Ev.logRec ⟨title, cfg.WORK_MINUTES, "work"⟩]
      let count2 := count + 1
      match breakParams cfg count2 with
      | none => evW ++ runCycles cfg title count2 os
      | some (m, s) =>
        match os with
        | [] => evW
        | ob :: os2 =>
          match ob with
          | .cancelled e =>
            evW ++ (Ev.timerStart m s ::
              (partialEvs cfg title e s ++ [Ev.interrupted]))
          | .completed =>
            evW ++ [Ev.timerStart m s, Ev.logRec ⟨title, m, s⟩]
              ++ runCycles cfg title count2 os2

/-! ### Config file loading (`load_config`, lines 32-54) -/

inductive Val
  | num (q : ℚ)
  | str (s : String)
deriving DecidableEq

/-- Model of `DEFAULT_CONFIG` (lines 22-30). -/
def DEFAULT_CONFIG : List (String × Val) :=
  [("WORK_MINUTES", .num 25),
   ("SHORT_BREAK_MINUTES", .num 5),
   ("LONG_BREAK_MINUTES", .num 15),
   ("SESSIONS_BEFORE_LONG_BREAK", .num 4),
   ("STATE_FILE", .str ".last_pymodoro_title.txt"),
   ("LOG_FILE", .str "pymodoro_log.csv"),
   ("MIN_SECONDS_TO_LOG", .num 60)]

/-- On-disk state of `pymodoro_config.json`. -/
inductive FileState
  | absent
  | malformed
  | parsed (entries : List (String × Val))
deriving DecidableEq

structure Disk where
  configFile : FileState
deriving DecidableEq

/-- First binding of a key in a JSON-object association list
(dict lookup; parsed JSON objects bind each key once). -/
def lookupKey : List (String × Val) → String → Option Val
  | [], _ => none
  | e :: l, k => if e.1 == k then some e.2 else lookupKey l k

/-- The key-filling loop of `load_config` (lines 39-41): every
`DEFAULT_CONFIG` key missing from `config` is added with its default value
(appended in `DEFAULT_CONFIG` order, matching dict insertion order). -/
def mergeDefaults (config : List (String × Val)) : List (String × Val) :=
  config ++ DEFAULT_CONFIG.filter
    (fun kd => !(config.any (fun kv => kv.1 == kd.1)))

/-- Model of `load_config` (lines 32-54): returns the configuration used for the run
and the disk state afterwards.  A parsed file is merged with defaults
in memory and returned as-is on disk; an absent or malformed file makes the
function fall through to writing `DEFAULT_CONFIG` to disk (lines 47-49). -/
def load_config (d : Disk) : List (String × Val) × Disk :=
  match d.configFile with
  | .parsed entries => (mergeDefaults entries, d)
  | .malformed => (DEFAULT_CONFIG, { configFile := .parsed DEFAULT_CONFIG })
  | .absent => (DEFAULT_CONFIG, { configFile := .parsed DEFAULT_CONFIG })

/-! ### Last-title persistence (lines 64-80) -/

/-- Model of `save_last_title` (lines 74-80): writes the title verbatim (mode `"w"`,
replacing any previous content). The slot is the contents of `STATE_FILE`,
`none` when the file does not exist. -/
def save_last_title (title : String) (_slot : Option String) : Option String :=
  some title

/-- Model of `get_last_title` (lines 64-72): reads the file and strips surrounding
whitespace; `""` when the file does not exist. -/
def get_last_title (slot : Option String) : String :=
  match slot with
  | some s => s.trim
  | none => ""

/-! ### Trace observations (specification side) -/

/-- Timer-start events of a trace. -/
def isStart : Ev → Bool
  | .timerStart _ _ => true
  | _ => false

/-- Log records of completed sessions: the three plain session types the
scheduler writes on completion (lines 271, 277, 282). -/
def isPlainLog : Ev → Bool
  | .logRec r =>
    r.stype == "work" || r.stype == "short_break" || r.stype == "long_break"
  | _ => false

/-- The propagating-interrupt event. -/
def isInterrupt : Ev → Bool
  | .interrupted => true
  | _ => false

/-- What may immediately precede the propagating interrupt in a trace: the
start of the cancelled timer (below-threshold cancellation) or the partial
log record of that timer. -/
def lastBeforeInterrupt (e : Ev) : Prop :=
  (∃ m s, e = .timerStart m s) ∨
  (∃ rec s, e = .logRec rec ∧ rec.stype = "partial_" ++ s)

/-! ## Helper lemmas -/

theorem floor_le_roundHalfEven (q : ℚ) : ⌊q⌋ ≤ roundHalfEven q := by
  simp only [roundHalfEven]
  split_ifs <;> omega

theorem abs_roundHalfEven_sub_le (q : ℚ) : |(roundHalfEven q : ℚ) - q| ≤ 1/2 := by
  have h0 : ((⌊q⌋ : ℚ)) ≤ q := Int.floor_le q
  have h1 : q < ⌊q⌋ + 1 := Int.lt_floor_add_one q
  simp only [roundHalfEven]
  split_ifs with hlt hgt hev <;>
    rw [abs_le] <;> constructor <;> push_cast <;> linarith

theorem abs_pyRound2_sub_le (q : ℚ) : |pyRound2 q - q| ≤ 1/200 := by
  have h := abs_roundHalfEven_sub_le (q * 100)
  have hrw : pyRound2 q - q = ((roundHalfEven (q * 100) : ℚ) - q * 100) / 100 := by
    simp only [pyRound2]; ring
  rw [hrw, abs_div, abs_of_pos (by norm_num : (0:ℚ) < 100)]
  linarith

theorem pyRound2_pos_of_one_le (q : ℚ) (h : 1 ≤ q) : 0 < pyRound2 (q / 60) := by
  have hfl : (1 : ℤ) ≤ ⌊q / 60 * 100⌋ := by
    rw [Int.le_floor]; push_cast; linarith
  have hr := floor_le_roundHalfEven (q / 60 * 100)
  have h1 : (1 : ℚ) ≤ ((roundHalfEven (q / 60 * 100) : ℤ) : ℚ) := by
    exact_mod_cast le_trans hfl hr
  simp only [pyRound2]
  exact div_pos (by linarith) (by norm_num)

/-! ## Claims -/

/-- C2 (code bug): the claim says pausing and resuming never perturbs the
computed elapsed time, for any number of pause/resume toggles at any points
in the run.  The code intends this (lines 220-227) but the toggle is read
twice without coordination: when the flag flips to paused during the sleep
of an iteration whose top-of-loop read was unpaused, line 227 runs with
`pause_start` either unassigned — `UnboundLocalError`, crashing the run —
or stale from an earlier pause episode, jumping `start_time` forward by the
whole unpaused gap (unbounded drift).  First conjunct: a first pause
arriving mid-sleep of an unpaused tick crashes.  Second conjunct: with a
stale `pause_start = 1` from an earlier episode, at `now = 10` the same
mid-sleep pause adds `9.1` seconds to `start_time`, so the run drifts even
though the pause lasted at most one tick. -/
theorem C2_pause_midsleep_crash_or_drift :
    runTimerStep 1500 ⟨0, 0, none⟩ false true (1/10) = .crashed ∧
    runTimerStep 1500 ⟨10, 0, some 1⟩ false true (1/10) =
      .next ⟨101/10, 91/10, some 1⟩ true := by
  constructor <;> norm_num [runTimerStep]

/-- C3 (counterexample): the claim says a logged partial session records
`minutes` exactly equal to `elapsed_seconds / 60`; the code rounds to two
decimal places (line 98), so cancelling at 100 elapsed seconds records
`1.67`, not `5/3`. -/
theorem C3_counterexample :
    log_partial_session ⟨25, 5, 15, 4, 60⟩ "t" 100 "work" =
      some ⟨"t", 167/100, "partial_work"⟩ ∧ (167/100 : ℚ) ≠ 100 / 60 := by
  constructor
  · norm_num [log_partial_session, pyRound2, roundHalfEven]
    rfl
  · norm_num

/-- C3 (amended): on cancellation, no record is written below the
threshold; at or above the threshold exactly one record is written with
type `partial_<kind>` and `minutes = round(elapsed_seconds/60, 2)` — within
`1/200` of `elapsed_seconds/60`, so rounded to two decimals rather than to
whole minutes.  The spec scenario holds: with `min_seconds_to_log = 60`,
cancelling a work timer at 45 s writes nothing and at 90 s writes one
record `partial_work` with minutes exactly `1.5`. -/
theorem C3_partial_session_logging (cfg : Config) (title session_type : String)
    (elapsed : ℚ) :
    (elapsed < cfg.MIN_SECONDS_TO_LOG →
      log_partial_session cfg title elapsed session_type = none) ∧
    (cfg.MIN_SECONDS_TO_LOG ≤ elapsed →
      log_partial_session cfg title elapsed session_type =
        some ⟨title, pyRound2 (elapsed / 60), "partial_" ++ session_type⟩ ∧
      |pyRound2 (elapsed / 60) - elapsed / 60| ≤ 1/200) ∧
    log_partial_session ⟨25, 5, 15, 4, 60⟩ "w" 45 "work" = none ∧
    log_partial_session ⟨25, 5, 15, 4, 60⟩ "w" 90 "work" =
      some ⟨"w", 3/2, "partial_work"⟩ := by
  refine ⟨fun h => ?_, fun h => ⟨?_, abs_pyRound2_sub_le _⟩,
    by norm_num [log_partial_session], by norm_num [log_partial_session, pyRound2, roundHalfEven]; rfl⟩
  · simp only [log_partial_session, ge_iff_le, if_neg (not_le.mpr h)]
  · simp only [log_partial_session, ge_iff_le, if_pos h]

theorem C3_partial_session_logging_witness :
    log_partial_session ⟨25, 5, 15, 4, 60⟩ "t2" 100 "work" =
      some ⟨"t2", pyRound2 (100 / 60), "partial_work"⟩ ∧
    |pyRound2 ((100 : ℚ) / 60) - 100 / 60| ≤ 1/200 :=
  (C3_partial_session_logging ⟨25, 5, 15, 4, 60⟩ "t2" "work" 100).2.1 (by norm_num)

/-- C9: saving a title and reading it back returns exactly the saved string
trimmed of surrounding whitespace: `save_last_title` writes the string
verbatim (line 78) and `get_last_title` strips on read (line 69). -/
theorem C9_last_title_roundtrip (s : String) (slot : Option String) :
    get_last_title (save_last_title s slot) = s.trim := rfl

/-! ## Config-file lemmas (C5) -/

theorem lookupKey_append (l₁ l₂ : List (String × Val)) (k : String) :
    lookupKey (l₁ ++ l₂) k =
      match lookupKey l₁ k with
      | some v => some v
      | none => lookupKey l₂ k := by
  induction l₁ with
  | nil => rfl
  | cons e l ih =>
    cases h : (e.1 == k) <;> simp [lookupKey, h, ih]

theorem any_key_eq_false_iff (entries : List (String × Val)) (k : String) :
    entries.any (fun kv => kv.1 == k) = false ↔ lookupKey entries k = none := by
  induction entries with
  | nil => simp [lookupKey]
  | cons e l ih =>
    cases h : (e.1 == k) <;> simp [lookupKey, h, ih]

theorem lookupKey_filter_missing (entries : List (String × Val)) (k : String)
    (h : entries.any (fun kv => kv.1 == k) = false) :
    ∀ d : List (String × Val),
      lookupKey (d.filter (fun kd => !(entries.any (fun kv => kv.1 == kd.1)))) k =
        lookupKey d k := by
  intro d
  induction d with
  | nil => rfl
  | cons e l ih =>
    cases hk : (e.1 == k) with
    | true =>
      have he : e.1 = k := eq_of_beq hk
      have : entries.any (fun kv => kv.1 == e.1) = false := by rw [he]; exact h
      simp [List.filter, this, lookupKey, hk]
    | false =>
      cases hc : entries.any (fun kv => kv.1 == e.1) <;>
        simp [List.filter, hc, lookupKey, hk, ih]

/-- C5 (counterexample): the claim says that after loading a config file
that parses but misses keys, the merged result is rewritten to disk.  With
a file holding only `WORK_MINUTES`, `load_config` returns the 7-key merged
configuration but leaves the disk exactly as it was: the file still holds
the single original key, not the merged result. -/
theorem C5_counterexample :
    (load_config ⟨.parsed [("WORK_MINUTES", .num 10)]⟩).2 =
      ⟨.parsed [("WORK_MINUTES", .num 10)]⟩ ∧
    ((load_config ⟨.parsed [("WORK_MINUTES", .num 10)]⟩).1).length = 7 ∧
    (load_config ⟨.parsed [("WORK_MINUTES", .num 10)]⟩).2.configFile ≠
      .parsed (load_config ⟨.parsed [("WORK_MINUTES", .num 10)]⟩).1 := by
  refine ⟨rfl, rfl, fun h => ?_⟩
  exact absurd (congrArg List.length (FileState.parsed.inj h)) (by decide)

/-- C5 (amended): when the config file exists and parses, every missing
key is filled from `DEFAULT_CONFIG` and every present key keeps its file
value — but only in the in-memory result returned by `load_config`; the
file on disk is left unchanged (the `return config` on line 42 never
reaches the `json.dump` on line 49, which runs only when the file is
absent or unreadable). -/
theorem C5_merge_in_memory_only (entries : List (String × Val)) (k : String) :
    (load_config ⟨.parsed entries⟩).2 = ⟨.parsed entries⟩ ∧
    lookupKey (load_config ⟨.parsed entries⟩).1 k =
      (match lookupKey entries k with
       | some v => some v
       | none => lookupKey DEFAULT_CONFIG k) := by
  refine ⟨rfl, ?_⟩
  show lookupKey (mergeDefaults entries) k = _
  rw [mergeDefaults, lookupKey_append]
  cases h : lookupKey entries k with
  | some v => rfl
  | none =>
    simp only
    exact lookupKey_filter_missing entries k
      ((any_key_eq_false_iff entries k).mpr h) DEFAULT_CONFIG

/-! ## Progress-bar lemmas (C7) -/

theorem clampedProgress_elapsed (total elapsed : ℚ) :
    clampedProgress (total - elapsed) total = min 1 (max 0 (elapsed / total)) := by
  unfold clampedProgress
  have h : total - (total - elapsed) = elapsed := by ring
  rw [h]

theorem floor_clamp_eq (x : ℚ) :
    ⌊100 * min 1 (max 0 x)⌋ = max 0 (min 100 ⌊100 * x⌋) := by
  rcases lt_or_le x 0 with hx | hx
  · have hl : min 1 (max 0 x) = 0 := by
      rw [max_eq_left hx.le]
      norm_num
    have hfl : ⌊(100:ℚ) * x⌋ < 0 := by
      rw [Int.floor_lt]
      push_cast
      nlinarith
    rw [hl, mul_zero, Int.floor_zero,
      min_eq_right (by omega : ⌊(100:ℚ) * x⌋ ≤ 100),
      max_eq_left hfl.le]
  · rcases le_or_lt x 1 with hx1 | hx1
    · have hl : min 1 (max 0 x) = x := by
        rw [max_eq_right hx]
        exact min_eq_right hx1
      have h0 : 0 ≤ ⌊(100:ℚ) * x⌋ := Int.floor_nonneg.mpr (by positivity)
      have h100 : ⌊(100:ℚ) * x⌋ ≤ 100 := by
        have h := Int.floor_le_floor (α := ℚ) (by nlinarith : (100:ℚ) * x ≤ 100)
        rwa [show ⌊(100:ℚ)⌋ = 100 from by norm_num] at h
      rw [hl, min_eq_right h100, max_eq_right h0]
    · have hl : min 1 (max 0 x) = 1 :=
        min_eq_left (le_trans hx1.le (le_max_right 0 x))
      have h100 : (100:ℤ) ≤ ⌊(100:ℚ) * x⌋ := by
        rw [Int.le_floor]
        push_cast
        nlinarith
      rw [hl, mul_one, show ⌊(100:ℚ)⌋ = 100 from by norm_num,
        min_eq_left h100, max_eq_right (by norm_num : (0:ℤ) ≤ 100)]

/-- C7: for a planned duration `total > 0`, the rendered percentage (the
timer passes `current = remaining = total - elapsed`, line 214) equals
`floor(100 * elapsed / total)` clamped to `[0, 100]`, for every elapsed
value; and for `0 ≤ e1 ≤ e2 ≤ total` it is monotonically non-decreasing in
the elapsed time. -/
theorem C7_percentage_formula (total : ℚ) (htotal : 0 < total) :
    (∀ elapsed : ℚ,
      progressPercentage (total - elapsed) total =
        max 0 (min 100 ⌊100 * (elapsed / total)⌋)) ∧
    (∀ e1 e2 : ℚ, 0 ≤ e1 → e1 ≤ e2 → e2 ≤ total →
      progressPercentage (total - e1) total ≤
        progressPercentage (total - e2) total) := by
  have hf : ∀ elapsed : ℚ, progressPercentage (total - elapsed) total =
      max 0 (min 100 ⌊100 * (elapsed / total)⌋) := by
    intro elapsed
    unfold progressPercentage
    rw [clampedProgress_elapsed]
    exact floor_clamp_eq (elapsed / total)
  refine ⟨hf, fun e1 e2 h0 h12 h2t => ?_⟩
  rw [hf e1, hf e2]
  have hdiv : e1 / total ≤ e2 / total := by gcongr
  have hm : ⌊100 * (e1 / total)⌋ ≤ ⌊100 * (e2 / total)⌋ :=
    Int.floor_le_floor (by linarith)
  exact max_le_max le_rfl (min_le_min le_rfl hm)

theorem C7_percentage_formula_witness :
    progressPercentage ((10:ℚ) - 4) 10 =
      max 0 (min 100 ⌊100 * ((4:ℚ) / 10)⌋) :=
  (C7_percentage_formula 10 (by norm_num)).1 4

/-! ## Zero-duration loop lemmas (C10) -/

theorem runTimerStep_zero_total (st : LoopSt) (p1 p2 : Bool) (δ : ℚ)
    (h : st.start_time ≤ st.now) (hδ : 0 ≤ δ) :
    runTimerStep 0 st p1 p2 δ = .completed st ∨
    ∃ st2, runTimerStep 0 st p1 p2 δ = .next st2 false ∧
      st2.start_time ≤ st2.now := by
  cases p1 with
  | false =>
    left
    unfold runTimerStep
    rw [if_pos ⟨rfl, by linarith⟩]
  | true =>
    right
    unfold runTimerStep
    rw [if_neg (by simp)]
    cases p2 with
    | true =>
      exact ⟨⟨st.now + δ, st.start_time + (st.now + δ - st.now), some st.now⟩,
        by simp, by simp; linarith⟩
    | false =>
      exact ⟨⟨st.now + δ, st.start_time, some st.now⟩, by simp, by simp; linarith⟩

/-- C10: on the `run_timer` path a zero-duration timer never reaches the
`create_progress_bar` call: whenever the loop is entered with
`start_time ≤ now` (as at line 182, where `start_time` is the current
time) and `total_seconds = 0`, every schedule of pause toggles and
non-negative tick durations terminates the loop (or exhausts the schedule)
without ever rendering a progress bar and without crashing; called
directly with `total = 0`, `create_progress_bar` raises (returns `none`). -/
theorem C10_zero_duration_no_bar (ticks : List (Bool × Bool × ℚ)) (st : LoopSt)
    (h : st.start_time ≤ st.now) (hd : ∀ t ∈ ticks, 0 ≤ t.2.2) :
    ((runTimerLoop 0 st ticks).1 ≠ LoopRes.crashed ∧
      (runTimerLoop 0 st ticks).2 = false) ∧
    (∀ current : ℚ, ∀ width : ℕ, create_progress_bar current 0 width = none) := by
  refine ⟨?_, fun current width => by simp [create_progress_bar]⟩
  induction ticks generalizing st with
  | nil => exact ⟨by simp [runTimerLoop], by simp [runTimerLoop]⟩
  | cons t ts ih =>
    obtain ⟨p1, p2, δ⟩ := t
    have hδ : 0 ≤ δ := hd (p1, p2, δ) (List.mem_cons_self _ _)
    have hd2 : ∀ t ∈ ts, 0 ≤ t.2.2 := fun t ht => hd t (List.mem_cons_of_mem _ ht)
    rcases runTimerStep_zero_total st p1 p2 δ h hδ with hstep | ⟨st2, hstep, hinv⟩
    · simp [runTimerLoop, hstep]
    · have := ih st2 hinv hd2
      simp [runTimerLoop, hstep]
      exact this

theorem C10_zero_duration_no_bar_witness :
    ((runTimerLoop 0 ⟨0, 0, none⟩ [(true, true, 1/10), (false, true, 1/10)]).1 ≠
        LoopRes.crashed ∧
      (runTimerLoop 0 ⟨0, 0, none⟩ [(true, true, 1/10), (false, true, 1/10)]).2 =
        false) ∧
    (∀ current : ℚ, ∀ width : ℕ, create_progress_bar current 0 width = none) :=
  C10_zero_duration_no_bar [(true, true, 1/10), (false, true, 1/10)] ⟨0, 0, none⟩
    (by norm_num) (by intro t ht; fin_cases ht <;> norm_num)

/-! ## Scheduler-trace lemmas (C1, C4, C6, C8) -/

theorem breakParams_inv (cfg : Config) (c : ℕ) (m : ℚ) (s : String)
    (h : breakParams cfg c = some (m, s)) :
    (c % cfg.SESSIONS_BEFORE_LONG_BREAK = 0 ∧
      m = cfg.LONG_BREAK_MINUTES ∧ s = "long_break") ∨
    (c % cfg.SESSIONS_BEFORE_LONG_BREAK ≠ 0 ∧
      m = cfg.SHORT_BREAK_MINUTES ∧ s = "short_break" ∧
      0 < cfg.SHORT_BREAK_MINUTES) := by
  unfold breakParams at h
  split_ifs at h with h1 h2
  · left
    cases h
    exact ⟨h1, rfl, rfl⟩
  · right
    cases h
    exact ⟨h1, rfl, rfl, h2⟩

theorem mem_partialEvs (cfg : Config) (title : String) (e : ℚ) (stype : String)
    (ev : Ev) (h : ev ∈ partialEvs cfg title e stype) :
    cfg.MIN_SECONDS_TO_LOG ≤ e ∧
    ev = .logRec ⟨title, pyRound2 (e / 60), "partial_" ++ stype⟩ := by
  unfold partialEvs log_partial_session at h
  split_ifs at h with hth
  · simp only [List.mem_singleton] at h
    exact ⟨hth, h⟩
  · simp at h

theorem interrupted_not_mem_partialEvs (cfg : Config) (title : String)
    (e : ℚ) (stype : String) : Ev.interrupted ∉ partialEvs cfg title e stype := by
  intro h
  rcases mem_partialEvs cfg title e stype _ h with ⟨-, h2⟩
  exact Ev.noConfusion h2

/-- Characterisation of every log record that can appear in a scheduler
trace: it is a completed work/long-break record with the configured
minutes, a completed short-break record (only emitted when the configured
short-break minutes are positive), or a partial record produced at or
above the logging threshold. -/
theorem runCycles_log_mem (cfg : Config) (title : String) :
    ∀ (os : List Outcome) (count : ℕ) (r : LogRecord),
      Ev.logRec r ∈ runCycles cfg title count os →
      r = ⟨title, cfg.WORK_MINUTES, "work"⟩ ∨
      r = ⟨title, cfg.LONG_BREAK_MINUTES, "long_break"⟩ ∨
      (r = ⟨title, cfg.SHORT_BREAK_MINUTES, "short_break"⟩ ∧
        0 < cfg.SHORT_BREAK_MINUTES) ∨
      (∃ e s, cfg.MIN_SECONDS_TO_LOG ≤ e ∧
        r = ⟨title, pyRound2 (e / 60), "partial_" ++ s⟩ ∧
        (s = "work" ∨ s = "long_break" ∨ s = "short_break")) := by
  have key : ∀ (n : ℕ) (os : List Outcome), os.length ≤ n →
      ∀ (count : ℕ) (r : LogRecord),
      Ev.logRec r ∈ runCycles cfg title count os →
      r = ⟨title, cfg.WORK_MINUTES, "work"⟩ ∨
      r = ⟨title, cfg.LONG_BREAK_MINUTES, "long_break"⟩ ∨
      (r = ⟨title, cfg.SHORT_BREAK_MINUTES, "short_break"⟩ ∧
        0 < cfg.SHORT_BREAK_MINUTES) ∨
      (∃ e s, cfg.MIN_SECONDS_TO_LOG ≤ e ∧
        r = ⟨title, pyRound2 (e / 60), "partial_" ++ s⟩ ∧
        (s = "work" ∨ s = "long_break" ∨ s = "short_break")) := by
    intro n
    induction n with
    | zero =>
      intro os hos count r hr
      rw [List.length_eq_zero.mp (Nat.le_zero.mp hos)] at hr
      simp [runCycles] at hr
    | succ n ih =>
      intro os hos count r hr
      rcases os with _ | ⟨o, os1⟩
      · simp [runCycles] at hr
      rcases o with _ | e
      · -- completed work
        rcases hbp : breakParams cfg (count + 1) with _ | ⟨m, s⟩
        · -- break skipped
          simp only [runCycles, hbp] at hr
          rcases List.mem_append.mp hr with h | h
          · rcases List.mem_cons.mp h with h | h
            · exact absurd h (by simp)
            rcases List.mem_cons.mp h with h | h
            · left; exact Ev.logRec.inj h
            · simp at h
          · have hlen : os1.length ≤ n := by
              simp only [List.length_cons] at hos; omega
            exact ih os1 hlen (count + 1) r h
        · rcases os1 with _ | ⟨ob, os2⟩
          · -- outcomes exhausted before the break timer
            simp only [runCycles, hbp] at hr
            rcases List.mem_cons.mp hr with h | h
            · exact absurd h (by simp)
            rcases List.mem_cons.mp h with h | h
            · left; exact Ev.logRec.inj h
            · simp at h
          · rcases ob with _ | e
            · -- completed break
              simp only [runCycles, hbp] at hr
              rcases List.mem_append.mp hr with h | h
              · rcases List.mem_append.mp h with h | h
                · rcases List.mem_cons.mp h with h | h
                  · exact absurd h (by simp)
                  rcases List.mem_cons.mp h with h | h
                  · left; exact Ev.logRec.inj h
                  · simp at h
                · rcases List.mem_cons.mp h with h | h
                  · exact absurd h (by simp)
                  rcases List.mem_cons.mp h with h | h
                  · have hb := Ev.logRec.inj h
                    rcases breakParams_inv cfg (count + 1) m s hbp with
                      ⟨-, hm, hs⟩ | ⟨-, hm, hs, hpos⟩
                    · right; left; rw [hb, hm, hs]
                    · right; right; left
                      refine ⟨?_, hpos⟩
                      rw [hb, hm, hs]
                  · simp at h
              · have hlen : os2.length ≤ n := by
                  simp only [List.length_cons] at hos; omega
                exact ih os2 hlen (count + 1) r h
            · -- cancelled break
              simp only [runCycles, hbp] at hr
              rcases List.mem_append.mp hr with h | h
              · rcases List.mem_cons.mp h with h | h
                · exact absurd h (by simp)
                rcases List.mem_cons.mp h with h | h
                · left; exact Ev.logRec.inj h
                · simp at h
              · rcases List.mem_cons.mp h with h | h
                · exact absurd h (by simp)
                rcases List.mem_append.mp h with h | h
                · rcases mem_partialEvs cfg title e s _ h with ⟨hth, heq⟩
                  right; right; right
                  refine ⟨e, s, hth, Ev.logRec.inj heq, ?_⟩
                  rcases breakParams_inv cfg (count + 1) m s hbp with
                    ⟨-, -, hs⟩ | ⟨-, -, hs, -⟩
                  · right; left; exact hs
                  · right; right; exact hs
                · simp at h
      · -- cancelled work
        simp only [runCycles] at hr
        rcases List.mem_cons.mp hr with h | h
        · exact absurd h (by simp)
        rcases List.mem_append.mp h with h | h
        · rcases mem_partialEvs cfg title e "work" _ h with ⟨hth, heq⟩
          right; right; right
          exact ⟨e, "work", hth, Ev.logRec.inj heq, Or.inl rfl⟩
        · simp at h
  intro os
  exact key os.length os le_rfl

/-! ## String lemmas: partial types are distinct from plain types -/

theorem partial_append_ne (s t : String)
    (h8 : t.data.take 8 ≠ "partial_".data) : "partial_" ++ s ≠ t := by
  intro h
  apply h8
  have hd := congrArg String.data h
  rw [String.data_append] at hd
  have ht : ("partial_".data ++ s.data).take 8 = t.data.take 8 := by rw [hd]
  rw [List.take_left' (by decide : ("partial_".data).length = 8)] at ht
  exact ht.symm

theorem partial_beq_work (s : String) : (("partial_" ++ s) == "work") = false :=
  beq_eq_false_iff_ne.mpr (partial_append_ne s "work" (by decide))

theorem partial_beq_short (s : String) :
    (("partial_" ++ s) == "short_break") = false :=
  beq_eq_false_iff_ne.mpr (partial_append_ne s "short_break" (by decide))

theorem partial_beq_long (s : String) :
    (("partial_" ++ s) == "long_break") = false :=
  beq_eq_false_iff_ne.mpr (partial_append_ne s "long_break" (by decide))

/-- C4 (amended): every record a scheduler run ever writes has
`minutes > 0`, provided the configured work and long-break minutes are
positive (as §3 of the spec requires of accepted configurations) and
`min_seconds_to_log` is at least one second.  Completed sessions log their
positive configured minutes (a zero-minute short break is skipped, not
logged), and a logged partial session has `elapsed ≥ min_seconds_to_log ≥
1 s`, so its rounded `minutes` is at least `0.02`. -/
theorem C4_minutes_positive (cfg : Config) (title : String) (os : List Outcome)
    (count : ℕ) (r : LogRecord)
    (hW : 0 < cfg.WORK_MINUTES) (hL : 0 < cfg.LONG_BREAK_MINUTES)
    (hM : 1 ≤ cfg.MIN_SECONDS_TO_LOG)
    (hr : Ev.logRec r ∈ runCycles cfg title count os) :
    0 < r.minutes := by
  rcases runCycles_log_mem cfg title os count r hr with
    h | h | ⟨h, hpos⟩ | ⟨e, s, hth, heq, -⟩
  · rw [h]; exact hW
  · rw [h]; exact hL
  · rw [h]; exact hpos
  · rw [heq]; exact pyRound2_pos_of_one_le e (le_trans hM hth)

theorem C4_minutes_positive_witness :
    (0:ℚ) < (⟨"t", 25, "work"⟩ : LogRecord).minutes :=
  C4_minutes_positive ⟨25, 5, 15, 4, 60⟩ "t" [.completed] 0 ⟨"t", 25, "work"⟩
    (by norm_num) (by norm_num) (by norm_num)
    (by norm_num [runCycles, breakParams])

/-- C4 (counterexample): with `MIN_SECONDS_TO_LOG = 0` — a value §3 of the
spec explicitly allows and the program accepts — cancelling the first work
timer after 0.1 s writes a partial record whose rounded minutes are `0.0`,
violating the claimed `minutes > 0` invariant. -/
theorem C4_counterexample :
    Ev.logRec ⟨"t", 0, "partial_work"⟩ ∈
      runCycles ⟨25, 5, 15, 4, 0⟩ "t" 0 [.cancelled (1/10)] ∧
    ¬ (0:ℚ) < (⟨"t", 0, "partial_work"⟩ : LogRecord).minutes := by
  constructor
  · have hs : ("partial_work" : String) = "partial_" ++ "work" := rfl
    rw [hs]
    norm_num [runCycles, partialEvs, log_partial_session, pyRound2, roundHalfEven]
  · norm_num

theorem partialEvs_countP (cfg : Config) (title : String) (e : ℚ) (s : String) :
    (partialEvs cfg title e s).countP isStart = 0 ∧
    (partialEvs cfg title e s).countP isPlainLog = 0 ∧
    (partialEvs cfg title e s).countP isInterrupt = 0 := by
  unfold partialEvs log_partial_session
  split_ifs
  · simp [List.countP_cons, isStart, isPlainLog, isInterrupt,
      partial_beq_work, partial_beq_short, partial_beq_long]
  · simp

/-- Every started timer either completes and is logged exactly once with
its plain type, or is cancelled and ends the trace with an interrupt:
start events are in bijection with plain-type log records plus the final
interrupt. -/
theorem runCycles_start_count (cfg : Config) (title : String) :
    ∀ (os : List Outcome) (count : ℕ),
      (runCycles cfg title count os).countP isStart =
        (runCycles cfg title count os).countP isPlainLog +
        (runCycles cfg title count os).countP isInterrupt := by
  have key : ∀ (n : ℕ) (os : List Outcome), os.length ≤ n → ∀ count : ℕ,
      (runCycles cfg title count os).countP isStart =
        (runCycles cfg title count os).countP isPlainLog +
        (runCycles cfg title count os).countP isInterrupt := by
    intro n
    induction n with
    | zero =>
      intro os hos count
      rw [List.length_eq_zero.mp (Nat.le_zero.mp hos)]
      simp [runCycles]
    | succ n ih =>
      intro os hos count
      rcases os with _ | ⟨o, os1⟩
      · simp [runCycles]
      rcases o with _ | e
      · rcases hbp : breakParams cfg (count + 1) with _ | ⟨m, s⟩
        · have hlen : os1.length ≤ n := by
            simp only [List.length_cons] at hos; omega
          have hrec := ih os1 hlen (count + 1)
          simp only [runCycles, hbp]
          simp [List.countP_append, List.countP_cons, isStart, isPlainLog,
            isInterrupt]
          omega
        · rcases os1 with _ | ⟨ob, os2⟩
          · simp only [runCycles, hbp]
            simp [List.countP_cons, isStart, isPlainLog, isInterrupt]
          · rcases ob with _ | e
            · have hlen : os2.length ≤ n := by
                simp only [List.length_cons] at hos; omega
              have hrec := ih os2 hlen (count + 1)
              rcases breakParams_inv cfg (count + 1) m s hbp with
                ⟨-, -, hs⟩ | ⟨-, -, hs, -⟩ <;> subst hs <;>
                simp only [runCycles, hbp] <;>
                simp [List.countP_append, List.countP_cons, isStart,
                  isPlainLog, isInterrupt] <;>
                omega
            · obtain ⟨h1, h2, h3⟩ := partialEvs_countP cfg title e s
              simp only [runCycles, hbp]
              simp [List.countP_append, List.countP_cons, isStart, isPlainLog,
                isInterrupt, h1, h2, h3]
      · obtain ⟨h1, h2, h3⟩ := partialEvs_countP cfg title e "work"
        simp only [runCycles]
        simp [List.countP_append, List.countP_cons, isStart, isPlainLog,
          isInterrupt, h1, h2, h3]
  intro os
  exact key os.length os le_rfl

/-- C6: every completed timer produces exactly one log record (start
events match plain-type log records plus the terminal interrupt one-one),
and every plain-type record logs the full configured minutes for its kind
— never a measured elapsed time; elapsed time only enters the
`partial_`-prefixed records of cancelled sessions, whose types differ from
all three plain kinds. -/
theorem C6_completed_sessions_log_planned (cfg : Config) (title : String)
    (os : List Outcome) (count : ℕ) :
    ((runCycles cfg title count os).countP isStart =
      (runCycles cfg title count os).countP isPlainLog +
      (runCycles cfg title count os).countP isInterrupt) ∧
    (∀ r : LogRecord, Ev.logRec r ∈ runCycles cfg title count os →
      (r.stype = "work" → r.minutes = cfg.WORK_MINUTES) ∧
      (r.stype = "short_break" → r.minutes = cfg.SHORT_BREAK_MINUTES) ∧
      (r.stype = "long_break" → r.minutes = cfg.LONG_BREAK_MINUTES)) := by
  refine ⟨runCycles_start_count cfg title os count, fun r hr => ?_⟩
  rcases runCycles_log_mem cfg title os count r hr with
    h | h | ⟨h, -⟩ | ⟨e, s, -, h, -⟩ <;> subst h
  · exact ⟨fun _ => rfl,
      fun hc => absurd (show ("work":String) = "short_break" from hc) (by decide),
      fun hc => absurd (show ("work":String) = "long_break" from hc) (by decide)⟩
  · exact ⟨fun hc => absurd (show ("long_break":String) = "work" from hc) (by decide),
      fun hc => absurd (show ("long_break":String) = "short_break" from hc) (by decide),
      fun _ => rfl⟩
  · exact ⟨fun hc => absurd (show ("short_break":String) = "work" from hc) (by decide),
      fun _ => rfl,
      fun hc => absurd (show ("short_break":String) = "long_break" from hc) (by decide)⟩
  · exact ⟨fun hc => absurd (show "partial_" ++ s = "work" from hc)
        (partial_append_ne s "work" (by decide)),
      fun hc => absurd (show "partial_" ++ s = "short_break" from hc)
        (partial_append_ne s "short_break" (by decide)),
      fun hc => absurd (show "partial_" ++ s = "long_break" from hc)
        (partial_append_ne s "long_break" (by decide))⟩

theorem C6_completed_sessions_log_planned_witness :
    (⟨"t", (25:ℚ), "work"⟩ : LogRecord).minutes = (25:ℚ) := by
  have h := (C6_completed_sessions_log_planned ⟨25, 5, 15, 4, 60⟩ "t"
    [.completed] 0).2 ⟨"t", 25, "work"⟩ (by norm_num [runCycles, breakParams])
  exact h.1 rfl

theorem shape_extend (pre : List Ev) (hpre : Ev.interrupted ∉ pre)
    (tr : List Ev)
    (h : Ev.interrupted ∉ tr ∨
      ∃ l₁ e, tr = l₁ ++ [Ev.interrupted] ∧ Ev.interrupted ∉ l₁ ∧
        l₁.getLast? = some e ∧ lastBeforeInterrupt e) :
    Ev.interrupted ∉ pre ++ tr ∨
    ∃ l₁ e, pre ++ tr = l₁ ++ [Ev.interrupted] ∧ Ev.interrupted ∉ l₁ ∧
      l₁.getLast? = some e ∧ lastBeforeInterrupt e := by
  rcases h with hno | ⟨l₁, e, heq, hnm, hlast, hlbi⟩
  · left
    rw [List.mem_append]
    rintro (h | h)
    exacts [hpre h, hno h]
  · right
    refine ⟨pre ++ l₁, e, ?_, ?_, ?_, hlbi⟩
    · rw [heq, List.append_assoc]
    · rw [List.mem_append]
      rintro (h | h)
      exacts [hpre h, hnm h]
    · have hne : l₁ ≠ [] := fun h => by rw [h] at hlast; simp at hlast
      rw [List.getLast?_append_of_ne_nil _ hne]
      exact hlast

theorem shape_cancelled (cfg : Config) (title : String) (e : ℚ) (s : String)
    (m : ℚ) :
    ∃ l₁ e',
      (Ev.timerStart m s :: (partialEvs cfg title e s ++ [Ev.interrupted])) =
        l₁ ++ [Ev.interrupted] ∧
      Ev.interrupted ∉ l₁ ∧ l₁.getLast? = some e' ∧ lastBeforeInterrupt e' := by
  rcases hps : log_partial_session cfg title e s with _ | r
  · refine ⟨[Ev.timerStart m s], Ev.timerStart m s, ?_, by simp, rfl,
      Or.inl ⟨m, s, rfl⟩⟩
    simp [partialEvs, hps]
  · refine ⟨[Ev.timerStart m s, Ev.logRec r], Ev.logRec r, ?_, by simp, rfl, ?_⟩
    · simp [partialEvs, hps]
    · right
      refine ⟨r, s, rfl, ?_⟩
      unfold log_partial_session at hps
      split_ifs at hps
      cases hps
      rfl

/-- Structure of a scheduler trace with respect to the interrupt: either no
cancellation occurred, or the trace ends at the (single) interrupt, which is
immediately preceded by the start of the cancelled timer or by its partial
log record. -/
theorem runCycles_interrupt_shape (cfg : Config) (title : String) :
    ∀ (os : List Outcome) (count : ℕ),
      Ev.interrupted ∉ runCycles cfg title count os ∨
      ∃ l₁ e, runCycles cfg title count os = l₁ ++ [Ev.interrupted] ∧
        Ev.interrupted ∉ l₁ ∧ l₁.getLast? = some e ∧ lastBeforeInterrupt e := by
  have key : ∀ (n : ℕ) (os : List Outcome), os.length ≤ n → ∀ count : ℕ,
      Ev.interrupted ∉ runCycles cfg title count os ∨
      ∃ l₁ e, runCycles cfg title count os = l₁ ++ [Ev.interrupted] ∧
        Ev.interrupted ∉ l₁ ∧ l₁.getLast? = some e ∧ lastBeforeInterrupt e := by
    intro n
    induction n with
    | zero =>
      intro os hos count
      rw [List.length_eq_zero.mp (Nat.le_zero.mp hos)]
      left
      simp [runCycles]
    | succ n ih =>
      intro os hos count
      rcases os with _ | ⟨o, os1⟩
      · left; simp [runCycles]
      rcases o with _ | e
      · rcases hbp : breakParams cfg (count + 1) with _ | ⟨m, s⟩
        · have hlen : os1.length ≤ n := by
            simp only [List.length_cons] at hos; omega
          simp only [runCycles, hbp]
          exact shape_extend _ (by simp) _ (ih os1 hlen (count + 1))
        · rcases os1 with _ | ⟨ob, os2⟩
          · left
            simp only [runCycles, hbp]
            simp
          · rcases ob with _ | e
            · have hlen : os2.length ≤ n := by
                simp only [List.length_cons] at hos; omega
              simp only [runCycles, hbp]
              exact shape_extend _ (by simp) _ (ih os2 hlen (count + 1))
            · simp only [runCycles, hbp]
              exact shape_extend _ (by simp) _
                (Or.inr (shape_cancelled cfg title e s m))
      · simp only [runCycles]
        exact Or.inr (shape_cancelled cfg title e "work" cfg.WORK_MINUTES)
  intro os
  exact key os.length os le_rfl

/-- C8: a cancellation terminates the whole run.  In every scheduler trace
the propagating interrupt can only be the very last event — no work or
break timer is ever started after it — and when a trace does end with the
interrupt, the event immediately before it is the cancelled timer's start
or its partial log record: the partial-session evaluation happens before
the cancellation propagates out of the scheduler loop. -/
theorem C8_cancellation_terminates_run (cfg : Config) (title : String)
    (os : List Outcome) (count : ℕ) :
    Ev.interrupted ∉ (runCycles cfg title count os).dropLast ∧
    ((runCycles cfg title count os).getLast? = some Ev.interrupted →
      ∃ e, (runCycles cfg title count os).dropLast.getLast? = some e ∧
        lastBeforeInterrupt e) := by
  rcases runCycles_interrupt_shape cfg title os count with
    hno | ⟨l₁, e, heq, hnm, hlast, hlbi⟩
  · constructor
    · intro h
      exact hno ((List.dropLast_sublist _).subset h)
    · intro h
      exfalso
      apply hno
      have hsplit := List.dropLast_append_getLast? Ev.interrupted h
      rw [← hsplit]
      simp
  · rw [heq]
    constructor
    · rw [List.dropLast_concat]
      exact hnm
    · intro _
      rw [List.dropLast_concat]
      exact ⟨e, hlast, hlbi⟩

theorem C8_cancellation_terminates_run_witness :
    ∃ e, (runCycles ⟨25, 5, 15, 4, 60⟩ "t" 0
        [.cancelled 90]).dropLast.getLast? = some e ∧ lastBeforeInterrupt e :=
  (C8_cancellation_terminates_run ⟨25, 5, 15, 4, 60⟩ "t" [.cancelled 90] 0).2
    (by norm_num [runCycles, partialEvs, log_partial_session])

/-- C1 (amended): after each completed work timer the incremented count
selects the break exactly as claimed — `LONG_BREAK` when
`count mod sessions_before_long_break = 0`, else `SHORT_BREAK` — but only
the short break is skipped when configured to 0 minutes: a zero-minute
long break is still run (it completes immediately) and still logged.
First conjunct: long break selected, run and logged whatever its minutes.
Second: short break selected, run and logged when its minutes are
positive.  Third: with zero short-break minutes the cycle continues with
no break timer and no break record at all. -/
theorem C1_break_selection (cfg : Config) (title : String) (count : ℕ)
    (os : List Outcome) :
    ((count + 1) % cfg.SESSIONS_BEFORE_LONG_BREAK = 0 →
      runCycles cfg title count (.completed :: .completed :: os) =
        [Ev.timerStart cfg.WORK_MINUTES "work",
         Ev.logRec ⟨title, cfg.WORK_MINUTES, "work"⟩,
         Ev.timerStart cfg.LONG_BREAK_MINUTES "long_break",
         Ev.logRec ⟨title, cfg.LONG_BREAK_MINUTES, "long_break"⟩] ++
          runCycles cfg title (count + 1) os) ∧
    ((count + 1) % cfg.SESSIONS_BEFORE_LONG_BREAK ≠ 0 →
      0 < cfg.SHORT_BREAK_MINUTES →
      runCycles cfg title count (.completed :: .completed :: os) =
        [Ev.timerStart cfg.WORK_MINUTES "work",
         Ev.logRec ⟨title, cfg.WORK_MINUTES, "work"⟩,
         Ev.timerStart cfg.SHORT_BREAK_MINUTES "short_break",
         Ev.logRec ⟨title, cfg.SHORT_BREAK_MINUTES, "short_break"⟩] ++
          runCycles cfg title (count + 1) os) ∧
    ((count + 1) % cfg.SESSIONS_BEFORE_LONG_BREAK ≠ 0 →
      cfg.SHORT_BREAK_MINUTES = 0 →
      ∀ os2 : List Outcome,
        runCycles cfg title count (.completed :: os2) =
          [Ev.timerStart cfg.WORK_MINUTES "work",
           Ev.logRec ⟨title, cfg.WORK_MINUTES, "work"⟩] ++
            runCycles cfg title (count + 1) os2) := by
  refine ⟨fun hmod => ?_, fun hmod hpos => ?_, fun hmod hzero os2 => ?_⟩
  · have hbp : breakParams cfg (count + 1) =
        some (cfg.LONG_BREAK_MINUTES, "long_break") := by
      unfold breakParams
      rw [if_pos hmod]
    simp [runCycles, hbp]
  · have hbp : breakParams cfg (count + 1) =
        some (cfg.SHORT_BREAK_MINUTES, "short_break") := by
      unfold breakParams
      rw [if_neg hmod, if_pos hpos]
    simp [runCycles, hbp]
  · have hbp : breakParams cfg (count + 1) = none := by
      unfold breakParams
      rw [if_neg hmod, if_neg (by rw [hzero]; exact lt_irrefl 0)]
    simp [runCycles, hbp]

theorem C1_break_selection_witness :
    runCycles ⟨25, 5, 15, 4, 60⟩ "t" 3 [.completed, .completed] =
      [Ev.timerStart 25 "work", Ev.logRec ⟨"t", 25, "work"⟩,
       Ev.timerStart 15 "long_break", Ev.logRec ⟨"t", 15, "long_break"⟩] ++
        runCycles ⟨25, 5, 15, 4, 60⟩ "t" 4 [] :=
  (C1_break_selection ⟨25, 5, 15, 4, 60⟩ "t" 3 []).1 (by norm_num)

/-- C1 (counterexample): the claim says the selected break is skipped
entirely — no timer run, no log record — whenever that break's configured
minutes are 0.  With `LONG_BREAK_MINUTES = 0` and
`SESSIONS_BEFORE_LONG_BREAK = 1`, the break selected after the first
completed work session is the long break, and the code still starts a
zero-minute long-break timer and still writes a `long_break` log record
(lines 276-277 have no zero-minute guard; only the short-break branch,
lines 280-284, has one). -/
theorem C1_counterexample :
    Ev.timerStart 0 "long_break" ∈
      runCycles ⟨25, 5, 0, 1, 60⟩ "t" 0 [.completed, .completed] ∧
    Ev.logRec ⟨"t", 0, "long_break"⟩ ∈
      runCycles ⟨25, 5, 0, 1, 60⟩ "t" 0 [.completed, .completed] := by
  constructor <;> norm_num [runCycles, breakParams]
